import Mathlib

/-!
Verification of the cuboid dual-tree pair-matrix engine
(`halotools/mock_observables/pair_counters/double_tree_pair_matrix.py`).

The two entry points `pair_matrix` and `xy_z_pair_matrix` and the private
helpers `_pair_matrix_engine`, `_xy_z_pair_matrix_engine` and `_process_args`
are embedded from the source file.  The collaborators they import
(`FlatRectanguloidDoubleTree`, `_enclose_in_box`,
`_set_approximate_cell_sizes`, `pairwise_distance_no_pbc`,
`pairwise_xy_z_distance_no_pbc`) live in modules of the repository that are
not part of the source set; those are modelled from the specification
(sections 3, 4.1-4.5 and 6) and are marked `Modelled from the spec:` below.

Modelling conventions:
* Coordinates are rationals (the spec's "finite real numbers"); the special
  floating-point values that matter to argument validation (`np.inf`, `nan`)
  are modelled by the dedicated type `PFloat` used for the `period` argument.
* The cython kernels return `sqrt` of the accepted squared separation; the
  square root of a rational is not a rational, so result entries store the
  *squared* separation, and theorems about the distance value `v` of an entry
  phrase it as `v * v = stored ∧ 0 ≤ v` (the square root is a bijection on
  nonnegative values, so entry sets determine each other).
* The trees keep their points as (original index, coordinate) pairs.  The
  source stores coordinates re-ordered by cell, returns sorted-space indices
  offset by each cell's slice start, and finally maps them through
  `idx_sorted` back to original indices; carrying the original index next to
  each coordinate composes those three bookkeeping steps, and the per-cell
  contents `cellPts` below are exactly the slices of the sorted order.
* `multiprocessing.Pool.map` collects per-cell results in task order with no
  shared mutable state (spec section 5), so it is `poolMap`, an ordered map.
  The file is Python 2 era (`from __future__ import ...`), where the builtin
  `map` returns a list, hence the serial branch is `List.map` as well.
* Python exceptions become an `Except` value; `PyErr.halotoolsError` is the
  `HalotoolsError` that `_process_args` raises (the spec's `ConfigError`),
  and `PyErr.nameError` is the `NameError` raised when an undefined variable
  (`grid1` in the verbose branch, `result` when no dispatch branch ran) is
  read.
-/

/-- A 3-D point (or 3-vector of shifts/extents); coordinates are exact
rationals standing for the source's finite floats. -/
structure Pt where
  x : ℚ
  y : ℚ
  z : ℚ
deriving DecidableEq, Repr

/-- Floating-point values as far as the `period` argument validation can
distinguish them: a finite value, positive infinity, or `nan`. -/
inductive PFloat where
  | fin (q : ℚ)
  | inf
  | nan
deriving DecidableEq, Repr

/-- `p < np.inf` on a `PFloat` (false for `inf` and for `nan`). -/
def PFloat.ltInf : PFloat → Bool
  | .fin _ => true
  | .inf => false
  | .nan => false

/-- `p > 0` on a `PFloat` (`inf > 0` is true, `nan > 0` is false). -/
def PFloat.gtZero : PFloat → Bool
  | .fin q => decide (0 < q)
  | .inf => true
  | .nan => false

/-- The finite value of a `PFloat` (only used after validation has ruled the
non-finite constructors out). -/
def PFloat.toQ : PFloat → ℚ
  | .fin q => q
  | .inf => 0
  | .nan => 0

/-- The `num_threads` argument as the source can receive it: an integer, a
string, or a float. -/
inductive NTArg where
  | int (n : ℤ)
  | str (s : String)
  | float (q : ℚ)
deriving DecidableEq, Repr

/-- Python exceptions surfaced by the embedded functions. -/
inductive PyErr where
  | halotoolsError
  | nameError
  | valueError
deriving DecidableEq, Repr

/-- The returned `scipy.sparse.coo_matrix`: a shape plus an unordered list of
(squared separation, row index, column index) entries.  The source stores the
square root of the first component; see the header comment. -/
structure CooMatrix where
  shape1 : ℕ
  shape2 : ℕ
  entries : List (ℚ × ℕ × ℕ)
deriving DecidableEq, Repr

/-- Squared Euclidean separation of two points. -/
def distSq (p q : Pt) : ℚ :=
  (p.x - q.x) ^ 2 + (p.y - q.y) ^ 2 + (p.z - q.z) ^ 2

/-- Squared separation along the first two axes ("perpendicular"). -/
def perpSq (p q : Pt) : ℚ :=
  (p.x - q.x) ^ 2 + (p.y - q.y) ^ 2

/-- Squared separation along the third axis ("parallel"). -/
def paraSq (p q : Pt) : ℚ :=
  (p.z - q.z) ^ 2

/-- Decorate a list with indices starting at `k`. -/
def indexPtsFrom (k : ℕ) : List Pt → List (ℕ × Pt)
  | [] => []
  | p :: ps => (k, p) :: indexPtsFrom (k + 1) ps

/-- Decorate a point list with its original (caller-order) indices. -/
def indexPts (l : List Pt) : List (ℕ × Pt) :=
  indexPtsFrom 0 l

/-- Minimum of a coordinate list (`np.min`); 0 on the empty list. -/
def listMin : List ℚ → ℚ
  | [] => 0
  | a :: r => r.foldl min a

/-- Maximum of a coordinate list (`np.max`); 0 on the empty list. -/
def listMax : List ℚ → ℚ
  | [] => 0
  | a :: r => r.foldl max a

/-- Modelled from the spec: `_enclose_in_box` (imported from
`double_tree_helpers`, not under the provided sources).  Spec section 3: with
`period` absent "the domain is implicitly an axis-aligned box enclosing both
point sets plus margin ≥ search radius×3", section 6: "auto-enclosing
non-periodic box, margin = 3×max search radius".  Per axis the points of both
sets are shifted so their minimum sits at 0 and the box extent is the point
spread plus the requested margin (`min_size`, which `_process_args` passes as
3× the per-axis search length). -/
def encloseInBox (d1 d2 : List Pt) (minSize : Pt) : List Pt × List Pt × Pt :=
  let xs := (d1 ++ d2).map Pt.x
  let ys := (d1 ++ d2).map Pt.y
  let zs := (d1 ++ d2).map Pt.z
  let ox := listMin xs
  let oy := listMin ys
  let oz := listMin zs
  let f : Pt → Pt := fun p => ⟨p.x - ox, p.y - oy, p.z - oz⟩
  (d1.map f, d2.map f,
    ⟨listMax xs - ox + minSize.x, listMax ys - oy + minSize.y,
     listMax zs - oz + minSize.z⟩)

/-- The common cell geometry of the double tree: number of divisions and
domain extent per axis (cell width along an axis is `extent / divisions`). -/
structure GridGeom where
  nx : ℕ
  ny : ℕ
  nz : ℕ
  ex : ℚ
  ey : ℚ
  ez : ℚ
deriving DecidableEq, Repr

/-- Modelled from the spec (section 4.1): number of divisions implied by an
approximate cell-size request: `max(1, floor(extent/approx_size))`. -/
def numDivs (extent approx : ℚ) : ℕ :=
  max 1 (Int.toNat ⌊extent / approx⌋)

/-- Modelled from the spec (section 4.2): the double tree chooses, per axis,
`divisions = max(divisions implied by A's request, divisions implied by B's
request)`, over the shared domain. -/
def buildGeom (per ac1 ac2 : Pt) : GridGeom :=
  ⟨max (numDivs per.x ac1.x) (numDivs per.x ac2.x),
   max (numDivs per.y ac1.y) (numDivs per.y ac2.y),
   max (numDivs per.z ac1.z) (numDivs per.z ac2.z),
   per.x, per.y, per.z⟩

/-- A cell of the grid, as a triple of per-axis indices.  The source flattens
the triple row-major into `icell ∈ range(Ncells)`; the flattening is a
bijection onto `allCells`, so the embedding keeps the triple. -/
abbrev Cell3 := ℕ × ℕ × ℕ

/-- Modelled from the spec (section 4.1): the cell index of a coordinate is
its cell-width quotient, clamped into `[0, n-1]` so that the boundary point
of the domain lands in the top cell (spec invariant: "every original point
appears in exactly one cell's range").  `c * n / extent` is `c / cellWidth`.
-/
def cellIdx (n : ℕ) (extent c : ℚ) : ℕ :=
  min (n - 1) (Int.toNat ⌊c * n / extent⌋)

/-- The cell containing a point. -/
def ptCell (g : GridGeom) (p : Pt) : Cell3 :=
  (cellIdx g.nx g.ex p.x, cellIdx g.ny g.ey p.y, cellIdx g.nz g.ez p.z)

/-- The contents of one cell: the indexed points falling in it.  This is the
slice `tree.x[slice_array[icell]]` of the cell-sorted buffers, with each
point's original index (`idx_sorted`) carried alongside. -/
def cellPts (g : GridGeom) (pts : List (ℕ × Pt)) (c : Cell3) : List (ℕ × Pt) :=
  pts.filter (fun ip => decide (ptCell g ip.2 = c))

/-- All cells of the grid, in row-major order (`range(Ncell1)`). -/
def allCells (g : GridGeom) : List Cell3 :=
  (List.range g.nx).flatMap (fun a =>
    (List.range g.ny).flatMap (fun b =>
      (List.range g.nz).map (fun c => (a, b, c))))

/-- Modelled from the spec (section 4.3): number of whole cells a search
radius spans along an axis: `span = ceil(radius / cellWidth)`; with
`cellWidth = extent / n` this is `ceil(radius * n / extent)`. -/
def axisSpan (searchLen : ℚ) (n : ℕ) (extent : ℚ) : ℕ :=
  Int.toNat ⌈searchLen * n / extent⌉

/-- Modelled from the spec (section 4.3): per-axis candidate destination
cells for a source cell `c`.  Candidate raw indices range over
`[c - span, c + span]`.  Non-periodic axis: out-of-range candidates are
dropped and the shift is 0.  Periodic axis: the raw index is wrapped by
modulo and the shift is "+period if the raw (pre-wrap) index was negative,
-period if it was ≥ numDivisions, else 0" (the spec's own words); the same
(cell, shift) pair is not emitted twice (spec's guard), hence the `dedup`. -/
def axisCandsNP (n span c : ℕ) : List (ℕ × ℚ) :=
  ((List.range (2 * span + 1)).map (fun (t : ℕ) => (c : ℤ) + t - span)).filterMap
    (fun k => if 0 ≤ k ∧ k < (n : ℤ) then some (k.toNat, (0 : ℚ)) else none)

/-- The periodic branch of the per-axis candidate enumeration (see
`axisCands`). -/
def axisCandsPBC (n span c : ℕ) (period : ℚ) : List (ℕ × ℚ) :=
  (((List.range (2 * span + 1)).map (fun (t : ℕ) => (c : ℤ) + t - span)).map
    (fun k =>
      ((k % (n : ℤ)).toNat,
        if k < 0 then period else if (n : ℤ) ≤ k then -period else 0))).dedup

/-- Selects the periodic or non-periodic per-axis candidate list. -/
def axisCands (periodic : Bool) (n span c : ℕ) (period : ℚ) : List (ℕ × ℚ) :=
  if periodic then axisCandsPBC n span c period else axisCandsNP n span c

/-- Modelled from the spec (section 4.3): the adjacent-cell enumeration
(`FlatRectanguloidDoubleTree.adjacent_cell_generator`): the Cartesian product
of the three per-axis candidate lists, each entry carrying its per-axis
periodic shifts as a 3-vector. -/
def adjacentCells (g : GridGeom) (PBCs : Bool) (per : Pt) (sx sy sz : ℚ)
    (c : Cell3) : List (Cell3 × Pt) :=
  (axisCands PBCs g.nx (axisSpan sx g.nx g.ex) c.1 per.x).flatMap (fun ax =>
    (axisCands PBCs g.ny (axisSpan sy g.ny g.ey) c.2.1 per.y).flatMap (fun ay =>
      (axisCands PBCs g.nz (axisSpan sz g.nz g.ez) c.2.2 per.z).map (fun az =>
        ((ax.1, ay.1, az.1), Pt.mk ax.2 ay.2 az.2))))

/-- Shift every point of a cell by the enumerator's periodic image shift:
`x_icell2 = double_tree.tree2.x[s2] + xshift` (a freshly created array). -/
def shiftPts (sh : Pt) (l : List (ℕ × Pt)) : List (ℕ × Pt) :=
  l.map (fun jp => (jp.1, Pt.mk (jp.2.x + sh.x) (jp.2.y + sh.y) (jp.2.z + sh.z)))

/-- Modelled from the spec (section 4.4): the cython kernel
`pairwise_distance_no_pbc`: every pair whose squared Euclidean separation is
≤ the squared threshold, with its local index pair.  The source returns the
square root of the accepted squared separation; the entry stores the square
(see header comment). -/
def pairwise_distance_no_pbc (ps qs : List (ℕ × Pt)) (rMaxSq : ℚ) :
    List (ℚ × ℕ × ℕ) :=
  ps.flatMap (fun ip =>
    qs.filterMap (fun jq =>
      if distSq ip.2 jq.2 ≤ rMaxSq then some (distSq ip.2 jq.2, ip.1, jq.1)
      else none))

/-- Modelled from the spec (section 4.4): the cython kernel
`pairwise_xy_z_distance_no_pbc`: every pair whose squared perpendicular
separation is ≤ the first squared threshold AND whose squared parallel
separation is ≤ the second; both (squared) components are returned. -/
def pairwise_xy_z_distance_no_pbc (ps qs : List (ℕ × Pt)) (rpMaxSq piMaxSq : ℚ) :
    List (ℚ × ℚ × ℕ × ℕ) :=
  ps.flatMap (fun ip =>
    qs.filterMap (fun jq =>
      if perpSq ip.2 jq.2 ≤ rpMaxSq ∧ paraSq ip.2 jq.2 ≤ piMaxSq then
        some (perpSq ip.2 jq.2, paraSq ip.2 jq.2, ip.1, jq.1)
      else none))

/-- `_pair_matrix_engine(double_tree, r_max_squared, period, PBCs, icell1)`:
extracts the source cell's points, walks the adjacent-cell generator with
per-axis search lengths `sqrt(r_max_squared)` (passed here as `searchLen`),
shifts each destination cell by its periodic image shift and runs the
kernel; per-cell results are concatenated. -/
def pairMatrixEngine (g : GridGeom) (pts1 pts2 : List (ℕ × Pt)) (PBCs : Bool)
    (per : Pt) (rMaxSq searchLen : ℚ) (icell1 : Cell3) : List (ℚ × ℕ × ℕ) :=
  let cell1 := cellPts g pts1 icell1
  (adjacentCells g PBCs per searchLen searchLen searchLen icell1).flatMap
    (fun cs => pairwise_distance_no_pbc cell1
      (shiftPts cs.2 (cellPts g pts2 cs.1)) rMaxSq)

/-- `_xy_z_pair_matrix_engine(double_tree, rp_max_squared, pi_max_squared,
period, PBCs, icell1)`: like `pairMatrixEngine` with per-axis search lengths
`(sqrt(rp_max_squared), sqrt(rp_max_squared), sqrt(pi_max_squared))` and the
two-threshold kernel. -/
def xyzPairMatrixEngine (g : GridGeom) (pts1 pts2 : List (ℕ × Pt)) (PBCs : Bool)
    (per : Pt) (rpMaxSq piMaxSq rpLen piLen : ℚ) (icell1 : Cell3) :
    List (ℚ × ℚ × ℕ × ℕ) :=
  let cell1 := cellPts g pts1 icell1
  (adjacentCells g PBCs per rpLen rpLen piLen icell1).flatMap
    (fun cs => pairwise_xy_z_distance_no_pbc cell1
      (shiftPts cs.2 (cellPts g pts2 cs.1)) rpMaxSq piMaxSq)

/-- The `num_threads` block of `_process_args` (lines 360-366): `1` is passed
through; the string `'max'` becomes `multiprocessing.cpu_count()`; any other
value that is not an `int` raises `HalotoolsError`; every `int` (including
0 and negative values) passes through unchanged. -/
def processNumThreads (cpuCount : ℤ) : NTArg → Except PyErr ℤ
  | .int n => .ok n
  | .str s => if s = "max" then .ok cpuCount else .error .halotoolsError
  | .float _ => .error .halotoolsError

/-- The length-1 broadcast of the `period` argument (lines 384-385 of
`_process_args`): a single value becomes a cubic length-3 vector; anything
else is passed through. -/
def broadcastPeriod (ps : List PFloat) : List PFloat :=
  match ps with
  | [q] => [q, q, q]
  | _ => ps

/-- The period block of `_process_args` (lines 376-391): with `period` absent
the point sets are enclosed in a box with `min_size = search_dim_max * 3.0`
and PBCs are off; otherwise a length-1 period is broadcast to three axes,
`assert np.all(period < np.inf)` and `assert np.all(period > 0)` raise
`HalotoolsError` on failure, and a period that then does not unpack into
three components raises a `ValueError` at `xperiod, yperiod, zperiod =
period`. -/
def processPeriod (d1 d2 : List Pt) (period : Option (List PFloat))
    (searchDimMax : Pt) : Except PyErr (List Pt × List Pt × Pt × Bool) :=
  match period with
  | none =>
    let r := encloseInBox d1 d2
      ⟨3 * searchDimMax.x, 3 * searchDimMax.y, 3 * searchDimMax.z⟩
    .ok (r.1, r.2.1, r.2.2, false)
  | some ps =>
    let ps' := broadcastPeriod ps
    if ps'.all PFloat.ltInf ∧ ps'.all PFloat.gtZero then
      match ps' with
      | [a, b, c] => .ok (d1, d2, ⟨a.toQ, b.toQ, c.toQ⟩, true)
      | _ => .error .valueError
    else .error .halotoolsError

/-- `_process_args(data1, data2, period, num_threads, search_dim_max)`
(lines 355-393): validates `num_threads`, then processes the period /
enclosing box.  Returns the (possibly shifted) coordinates, the period
3-vector, the processed thread count and the PBC flag. -/
def processArgs (d1 d2 : List Pt) (period : Option (List PFloat)) (nt : NTArg)
    (searchDimMax : Pt) (cpuCount : ℤ) :
    Except PyErr (List Pt × List Pt × Pt × ℤ × Bool) :=
  match processNumThreads cpuCount nt with
  | .error e => .error e
  | .ok nt' =>
    match processPeriod d1 d2 period searchDimMax with
    | .error e => .error e
    | .ok (d1', d2', per, PBCs) => .ok (d1', d2', per, nt', PBCs)

/-- Modelled from the spec: `_set_approximate_cell_sizes` and
`_set_approximate_xy_z_cell_sizes` (imported from `double_tree_helpers`, not
under the provided sources).  Spec section 6: the cell-size hints default "to
1/10 of each period axis ... when absent"; section 7: a "non-positive
cell-size hint" raises a `ConfigError`. -/
def setApproxSizes (h1 h2 : Option Pt) (per : Pt) : Except PyErr (Pt × Pt) :=
  let dflt : Pt := ⟨per.x / 10, per.y / 10, per.z / 10⟩
  let check : Option Pt → Except PyErr Pt := fun h =>
    match h with
    | none => .ok dflt
    | some a =>
      if 0 < a.x ∧ 0 < a.y ∧ 0 < a.z then .ok a else .error .halotoolsError
  match check h1 with
  | .error e => .error e
  | .ok a1 =>
    match check h2 with
    | .error e => .error e
    | .ok a2 => .ok (a1, a2)

/-- `multiprocessing.Pool(numWorkers).map(f, xs)`: the work units are
independent (spec section 5), the pool collects their results in task order,
so the result is an ordered map regardless of the worker count. -/
def poolMap {α β : Type} (_numWorkers : ℤ) (f : α → β) (xs : List α) : List β :=
  xs.map f

/-- The dispatch block (lines 106-111 resp. 273-278): `num_threads > 1` runs
the pool, `num_threads == 1` runs the serial (Python 2) `map`; any other
value leaves `result` unassigned, so the subsequent `range(len(result))`
raises a `NameError`. -/
def dispatch {α β : Type} (nt : ℤ) (f : α → β) (xs : List α) :
    Except PyErr (List β) :=
  if 1 < nt then .ok (poolMap nt f xs)
  else if nt = 1 then .ok (xs.map f)
  else .error .nameError

/-- `pair_matrix(data1, data2, r_max, period, verbose, num_threads,
approx_cell1_size, approx_cell2_size)` (lines 25-128).  `cpuCount` is the
machine's `multiprocessing.cpu_count()`.  The verbose branch (lines 94-97)
reads the undefined variable `grid1`, so `verbose=True` raises a
`NameError` after the tree is built.  The final entries carry the caller's
original indices (the source's `idx_sorted` remap, see header comment). -/
def pair_matrix (data1 data2 : List Pt) (rMax : ℚ)
    (period : Option (List PFloat)) (verbose : Bool) (numThreads : NTArg)
    (h1 h2 : Option Pt) (cpuCount : ℤ) : Except PyErr CooMatrix :=
  match processArgs data1 data2 period numThreads ⟨rMax, rMax, rMax⟩ cpuCount with
  | .error e => .error e
  | .ok (d1, d2, per, nt, PBCs) =>
    match setApproxSizes h1 h2 per with
    | .error e => .error e
    | .ok (ac1, ac2) =>
      let g := buildGeom per ac1 ac2
      let pts1 := indexPts d1
      let pts2 := indexPts d2
      if verbose then .error .nameError
      else
        match dispatch nt
          (pairMatrixEngine g pts1 pts2 PBCs per (rMax ^ 2) |rMax|)
          (allCells g) with
        | .error e => .error e
        | .ok results =>
          .ok ⟨data1.length, data2.length, results.flatten⟩

/-- `xy_z_pair_matrix(data1, data2, rp_max, pi_max, period, verbose,
num_threads, approx_cell1_size, approx_cell2_size)` (lines 181-298).
`search_dim_max = [rp_max, rp_max, pi_max]` is formed from the caller's
`pi_max` (line 238), but line 243 then executes `pi_max = float(rp_max)`,
overwriting the parallel threshold with the perpendicular one before the
tree is built and the kernel thresholds are squared; `piOverwritten` below
transcribes that line. -/
def xy_z_pair_matrix (data1 data2 : List Pt) (rpMax piMax : ℚ)
    (period : Option (List PFloat)) (verbose : Bool) (numThreads : NTArg)
    (h1 h2 : Option Pt) (cpuCount : ℤ) :
    Except PyErr (CooMatrix × CooMatrix) :=
  match processArgs data1 data2 period numThreads ⟨rpMax, rpMax, piMax⟩ cpuCount with
  | .error e => .error e
  | .ok (d1, d2, per, nt, PBCs) =>
    let piOverwritten := rpMax
    match setApproxSizes h1 h2 per with
    | .error e => .error e
    | .ok (ac1, ac2) =>
      let g := buildGeom per ac1 ac2
      let pts1 := indexPts d1
      let pts2 := indexPts d2
      if verbose then .error .nameError
      else
        match dispatch nt
          (xyzPairMatrixEngine g pts1 pts2 PBCs per (rpMax ^ 2)
            (piOverwritten ^ 2) |rpMax| |piOverwritten|)
          (allCells g) with
        | .error e => .error e
        | .ok results =>
          let flat := results.flatten
          .ok (⟨data1.length, data2.length,
                 flat.map (fun t => (t.1, t.2.2))⟩,
               ⟨data1.length, data2.length,
                 flat.map (fun t => (t.2.1, t.2.2))⟩)

/-- The brute-force oracle of spec section 8: the kernel applied to the two
whole point sets in caller order, with no spatial decomposition and no
periodicity. -/
def bruteForceEntries (data1 data2 : List Pt) (rMax : ℚ) : List (ℚ × ℕ × ℕ) :=
  pairwise_distance_no_pbc (indexPts data1) (indexPts data2) (rMax ^ 2)

/-- A cell-size hint is well-formed when absent or componentwise positive
(spec section 7: a non-positive hint is a `ConfigError`). -/
def validHint : Option Pt → Prop
  | none => True
  | some a => 0 < a.x ∧ 0 < a.y ∧ 0 < a.z

instance : DecidablePred validHint := fun h =>
  match h with
  | none => inferInstanceAs (Decidable True)
  | some _ => inferInstanceAs (Decidable (_ ∧ _ ∧ _))


theorem indexPtsFrom_map (f : Pt → Pt) :
    ∀ (k : ℕ) (l : List Pt),
      indexPtsFrom k (l.map f) = (indexPtsFrom k l).map (fun ip => (ip.1, f ip.2))
  | _, [] => rfl
  | k, p :: ps => by
    simp only [List.map_cons, indexPtsFrom, indexPtsFrom_map f (k + 1) ps]

theorem snd_mem_of_mem_indexPtsFrom :
    ∀ {k : ℕ} {l : List Pt} {ip : ℕ × Pt}, ip ∈ indexPtsFrom k l → ip.2 ∈ l := by
  intro k l
  induction l generalizing k with
  | nil => intro ip h; cases h
  | cons p ps ih =>
    intro ip h
    cases h with
    | head => exact List.mem_cons_self ..
    | tail _ h => exact List.mem_cons_of_mem _ (ih h)

theorem exists_mem_indexPtsFrom :
    ∀ {l : List Pt} {k i : ℕ}, i < l.length → ∃ p, (k + i, p) ∈ indexPtsFrom k l := by
  intro l
  induction l with
  | nil => intro k i h; cases h
  | cons p ps ih =>
    intro k i h
    cases i with
    | zero => exact ⟨p, by simp [indexPtsFrom]⟩
    | succ m =>
      obtain ⟨q, hq⟩ := ih (k := k + 1) (i := m) (by simpa using h)
      refine ⟨q, ?_⟩
      have he : k + (m + 1) = k + 1 + m := by omega
      rw [he]
      exact List.mem_cons_of_mem _ hq

theorem foldl_min_le_init : ∀ (l : List ℚ) (a : ℚ), l.foldl min a ≤ a := by
  intro l
  induction l with
  | nil => intro a; simp
  | cons b r ih =>
    intro a
    calc (b :: r).foldl min a = r.foldl min (min a b) := rfl
    _ ≤ min a b := ih _
    _ ≤ a := min_le_left _ _

theorem foldl_min_le_mem :
    ∀ (l : List ℚ) (a c : ℚ), c ∈ l → l.foldl min a ≤ c := by
  intro l
  induction l with
  | nil => intro a c h; cases h
  | cons b r ih =>
    intro a c h
    rcases List.mem_cons.mp h with rfl | h
    · rw [List.foldl_cons]
      exact le_trans (foldl_min_le_init _ _) (min_le_right _ _)
    · exact ih _ _ h

theorem le_foldl_max_init : ∀ (l : List ℚ) (a : ℚ), a ≤ l.foldl max a := by
  intro l
  induction l with
  | nil => intro a; simp
  | cons b r ih =>
    intro a
    calc a ≤ max a b := le_max_left _ _
    _ ≤ r.foldl max (max a b) := ih _
    _ = (b :: r).foldl max a := rfl

theorem le_foldl_max_mem :
    ∀ (l : List ℚ) (a c : ℚ), c ∈ l → c ≤ l.foldl max a := by
  intro l
  induction l with
  | nil => intro a c h; cases h
  | cons b r ih =>
    intro a c h
    rcases List.mem_cons.mp h with rfl | h
    · rw [List.foldl_cons]
      exact le_trans (le_max_right _ _) (le_foldl_max_init _ _)
    · exact ih _ _ h

theorem listMin_le {l : List ℚ} {c : ℚ} (h : c ∈ l) : listMin l ≤ c := by
  cases l with
  | nil => cases h
  | cons a r =>
    rcases List.mem_cons.mp h with rfl | h
    · exact foldl_min_le_init r c
    · exact foldl_min_le_mem r a c h

theorem le_listMax {l : List ℚ} {c : ℚ} (h : c ∈ l) : c ≤ listMax l := by
  cases l with
  | nil => cases h
  | cons a r =>
    rcases List.mem_cons.mp h with rfl | h
    · exact le_foldl_max_init r c
    · exact le_foldl_max_mem r a c h

theorem mem_cellPts {g : GridGeom} {pts : List (ℕ × Pt)} {c : Cell3}
    {ip : ℕ × Pt} : ip ∈ cellPts g pts c ↔ ip ∈ pts ∧ ptCell g ip.2 = c := by
  simp [cellPts, List.mem_filter]

theorem mem_allCells {g : GridGeom} {a b c : ℕ} :
    ((a, b, c) : Cell3) ∈ allCells g ↔ a < g.nx ∧ b < g.ny ∧ c < g.nz := by
  simp only [allCells, List.mem_flatMap, List.mem_map, List.mem_range]
  constructor
  · rintro ⟨a', ha, b', hb, c', hc, heq⟩
    injection heq with h1 h23
    injection h23 with h2 h3
    subst h1; subst h2; subst h3
    exact ⟨ha, hb, hc⟩
  · rintro ⟨ha, hb, hc⟩
    exact ⟨a, ha, b, hb, c, hc, rfl⟩

theorem mem_axisCandsNP {n span c : ℕ} {m : ℕ} {s : ℚ} :
    (m, s) ∈ axisCandsNP n span c ↔
      s = 0 ∧ m < n ∧ c ≤ m + span ∧ m ≤ c + span := by
  constructor
  · intro h
    simp only [axisCandsNP] at h
    rw [List.mem_filterMap] at h
    obtain ⟨k, hk, hf⟩ := h
    rw [List.mem_map] at hk
    obtain ⟨t, ht, rfl⟩ := hk
    rw [List.mem_range] at ht
    split_ifs at hf with hc
    · injection hf with hf2
      injection hf2 with hm hs
      refine ⟨hs.symm, ?_, ?_, ?_⟩ <;> omega
  · rintro ⟨rfl, hm, h1, h2⟩
    simp only [axisCandsNP]
    rw [List.mem_filterMap]
    refine ⟨(m : ℤ), ?_, ?_⟩
    · rw [List.mem_map]
      refine ⟨m + span - c, ?_, ?_⟩
      · rw [List.mem_range]; omega
      · omega
    · rw [if_pos ⟨by omega, by omega⟩]
      simp

theorem mem_adjacentCells {g : GridGeom} {pbc : Bool} {per : Pt}
    {sx sy sz : ℚ} {c : Cell3} {a b e : ℕ} {u v w : ℚ} :
    ((⟨a, b, e⟩, ⟨u, v, w⟩) : Cell3 × Pt) ∈ adjacentCells g pbc per sx sy sz c ↔
      ((a, u) ∈ axisCands pbc g.nx (axisSpan sx g.nx g.ex) c.1 per.x ∧
       (b, v) ∈ axisCands pbc g.ny (axisSpan sy g.ny g.ey) c.2.1 per.y ∧
       (e, w) ∈ axisCands pbc g.nz (axisSpan sz g.nz g.ez) c.2.2 per.z) := by
  simp only [adjacentCells, List.mem_flatMap, List.mem_map]
  constructor
  · rintro ⟨ax, hax, ay, hay, az, haz, heq⟩
    injection heq with hcell hsh
    injection hcell with e1 hbc
    injection hbc with e2 e3
    injection hsh with f1 f2 f3
    subst e1; subst e2; subst e3; subst f1; subst f2; subst f3
    exact ⟨hax, hay, haz⟩
  · rintro ⟨h1, h2, h3⟩
    exact ⟨(a, u), h1, (b, v), h2, (e, w), h3, rfl⟩

theorem mem_kernel {ps qs : List (ℕ × Pt)} {rsq : ℚ} {en : ℚ × ℕ × ℕ} :
    en ∈ pairwise_distance_no_pbc ps qs rsq ↔
      ∃ ip ∈ ps, ∃ jq ∈ qs,
        distSq ip.2 jq.2 ≤ rsq ∧ en = (distSq ip.2 jq.2, ip.1, jq.1) := by
  simp only [pairwise_distance_no_pbc, List.mem_flatMap, List.mem_filterMap]
  constructor
  · rintro ⟨ip, hip, jq, hjq, hsome⟩
    by_cases hc : distSq ip.2 jq.2 ≤ rsq
    · rw [if_pos hc] at hsome
      exact ⟨ip, hip, jq, hjq, hc, (Option.some_inj.mp hsome).symm⟩
    · rw [if_neg hc] at hsome; cases hsome
  · rintro ⟨ip, hip, jq, hjq, hc, rfl⟩
    exact ⟨ip, hip, jq, hjq, by rw [if_pos hc]⟩

theorem shiftPts_zero (l : List (ℕ × Pt)) : shiftPts ⟨0, 0, 0⟩ l = l := by
  unfold shiftPts
  have h : (fun (jp : ℕ × Pt) =>
      (jp.1, Pt.mk (jp.2.x + 0) (jp.2.y + 0) (jp.2.z + 0))) = fun jp => jp := by
    funext jp
    simp
  rw [h, List.map_id']

theorem floor_sub_le_ceil (a b : ℚ) : ⌊a⌋ - ⌊b⌋ ≤ ⌈a - b⌉ := by
  have h1 : (⌊a⌋ : ℚ) ≤ a := Int.floor_le a
  have h2 : (b : ℚ) < ⌊b⌋ + 1 := Int.lt_floor_add_one b
  have h3 : (a - b : ℚ) ≤ ⌈a - b⌉ := Int.le_ceil _
  have h4 : (⌊a⌋ : ℚ) < (⌈a - b⌉ : ℚ) + ⌊b⌋ + 1 := by linarith
  have h5 : ⌊a⌋ < ⌈a - b⌉ + ⌊b⌋ + 1 := by exact_mod_cast h4
  omega

theorem abs_le_abs_of_sq_le_sq {a b : ℚ} (h : a ^ 2 ≤ b ^ 2) : |a| ≤ |b| := by
  nlinarith [sq_abs a, sq_abs b, abs_nonneg a, abs_nonneg b,
    mul_self_nonneg (|a| - |b|), mul_self_nonneg (|a| + |b|)]

theorem distSq_comm (p q : Pt) : distSq p q = distSq q p := by
  unfold distSq; ring

theorem distSq_self (p : Pt) : distSq p p = 0 := by
  unfold distSq; ring

theorem distSq_translate (p q : Pt) (vx vy vz : ℚ) :
    distSq ⟨p.x - vx, p.y - vy, p.z - vz⟩ ⟨q.x - vx, q.y - vy, q.z - vz⟩
      = distSq p q := by
  unfold distSq; ring

theorem sq_axis_le_distSq_x (p q : Pt) : (p.x - q.x) ^ 2 ≤ distSq p q := by
  unfold distSq; nlinarith [sq_nonneg (p.y - q.y), sq_nonneg (p.z - q.z)]

theorem sq_axis_le_distSq_y (p q : Pt) : (p.y - q.y) ^ 2 ≤ distSq p q := by
  unfold distSq; nlinarith [sq_nonneg (p.x - q.x), sq_nonneg (p.z - q.z)]

theorem sq_axis_le_distSq_z (p q : Pt) : (p.z - q.z) ^ 2 ≤ distSq p q := by
  unfold distSq; nlinarith [sq_nonneg (p.x - q.x), sq_nonneg (p.y - q.y)]

theorem cellIdx_lt {n : ℕ} (hn : 1 ≤ n) (extent c : ℚ) : cellIdx n extent c < n := by
  unfold cellIdx
  have := Nat.min_le_left (n - 1) (Int.toNat ⌊c * n / extent⌋)
  omega

/-- Geometric coverage: two coordinates of the domain `[0, E]` whose
separation is at most `L` land in cells at most `ceil(L / cellWidth)` apart,
which is the enumerator's per-axis span for search length `L`. -/
theorem cellIdx_diff_le {n : ℕ} (hn : 1 ≤ n) {E x y L : ℚ}
    (hx0 : 0 ≤ x) (hxE : x ≤ E) (hy0 : 0 ≤ y) (hyE : y ≤ E)
    (hL : |x - y| ≤ L) :
    ((cellIdx n E x : ℤ) - cellIdx n E y).natAbs ≤ axisSpan L n E := by
  rcases eq_or_lt_of_le (le_trans hx0 hxE) with hE0 | hEpos
  · have hx : x = 0 := le_antisymm (hE0 ▸ hxE) hx0
    have hy : y = 0 := le_antisymm (hE0 ▸ hyE) hy0
    rw [hx, hy]
    simp
  · -- E > 0
    have hnq : (0 : ℚ) < n := by exact_mod_cast hn
    have key : ∀ u : ℚ, 0 ≤ u → u ≤ E →
        0 ≤ ⌊u * n / E⌋ ∧ ⌊u * n / E⌋ ≤ n ∧
          (cellIdx n E u : ℤ) = min ((n : ℤ) - 1) ⌊u * n / E⌋ := by
      intro u hu0 huE
      have hq0 : 0 ≤ u * n / E := by positivity
      have hfl0 : 0 ≤ ⌊u * n / E⌋ := Int.floor_nonneg.mpr hq0
      have hqn : u * n / E ≤ n := by
        rw [div_le_iff₀ hEpos]
        calc u * n ≤ E * n := by
              exact mul_le_mul_of_nonneg_right huE (le_of_lt hnq)
        _ = (n : ℚ) * E := by ring
      have hfln : ⌊u * n / E⌋ ≤ n := by
        have := Int.floor_le_floor hqn
        simpa using this
      refine ⟨hfl0, hfln, ?_⟩
      unfold cellIdx
      omega
    obtain ⟨hx1, hx2, hx3⟩ := key x hx0 hxE
    obtain ⟨hy1, hy2, hy3⟩ := key y hy0 hyE
    have hfd1 : ⌊x * n / E⌋ - ⌊y * n / E⌋ ≤ ⌈(x - y) * n / E⌉ := by
      have h := floor_sub_le_ceil (x * n / E) (y * n / E)
      have he : x * n / E - y * n / E = (x - y) * n / E := by ring
      rwa [he] at h
    have hfd2 : ⌊y * n / E⌋ - ⌊x * n / E⌋ ≤ ⌈(y - x) * n / E⌉ := by
      have h := floor_sub_le_ceil (y * n / E) (x * n / E)
      have he : y * n / E - x * n / E = (y - x) * n / E := by ring
      rwa [he] at h
    have hcmono1 : ⌈(x - y) * n / E⌉ ≤ ⌈L * n / E⌉ := by
      apply Int.ceil_le_ceil
      have hxy : x - y ≤ L := le_trans (le_abs_self _) hL
      exact (div_le_div_iff_of_pos_right hEpos).mpr (mul_le_mul_of_nonneg_right hxy (le_of_lt hnq))
    have hcmono2 : ⌈(y - x) * n / E⌉ ≤ ⌈L * n / E⌉ := by
      apply Int.ceil_le_ceil
      have hxy : y - x ≤ L := by
        have := abs_sub_comm x y ▸ hL
        exact le_trans (le_abs_self _) this
      exact (div_le_div_iff_of_pos_right hEpos).mpr (mul_le_mul_of_nonneg_right hxy (le_of_lt hnq))
    unfold axisSpan
    omega

theorem axisCands_false (n span c : ℕ) (p : ℚ) :
    axisCands false n span c p = axisCandsNP n span c := by
  simp [axisCands]

/-- Soundness and completeness of the non-periodic cell decomposition: the
concatenation of the engine's per-source-cell results has exactly the
entries of the brute-force kernel applied to the two whole (indexed) point
sets, provided every point lies inside the grid domain. -/
theorem mem_engine_entries_iff (g : GridGeom) (d1 d2 : List Pt) (r : ℚ)
    (per : Pt)
    (hnx : 1 ≤ g.nx) (hny : 1 ≤ g.ny) (hnz : 1 ≤ g.nz)
    (hb1 : ∀ p ∈ d1, 0 ≤ p.x ∧ p.x ≤ g.ex ∧ 0 ≤ p.y ∧ p.y ≤ g.ey ∧
      0 ≤ p.z ∧ p.z ≤ g.ez)
    (hb2 : ∀ p ∈ d2, 0 ≤ p.x ∧ p.x ≤ g.ex ∧ 0 ≤ p.y ∧ p.y ≤ g.ey ∧
      0 ≤ p.z ∧ p.z ≤ g.ez)
    (en : ℚ × ℕ × ℕ) :
    en ∈ (allCells g).flatMap
        (pairMatrixEngine g (indexPts d1) (indexPts d2) false per (r ^ 2) |r|) ↔
      en ∈ pairwise_distance_no_pbc (indexPts d1) (indexPts d2) (r ^ 2) := by
  constructor
  · intro h
    rw [List.mem_flatMap] at h
    obtain ⟨c1, _, hen⟩ := h
    simp only [pairMatrixEngine] at hen
    rw [List.mem_flatMap] at hen
    obtain ⟨⟨⟨a, b, e⟩, u, v, w⟩, hcs, hker⟩ := hen
    rw [mem_adjacentCells] at hcs
    rw [axisCands_false, axisCands_false, axisCands_false] at hcs
    obtain ⟨hax, hay, haz⟩ := hcs
    obtain ⟨hu, -, -, -⟩ := mem_axisCandsNP.mp hax
    obtain ⟨hv, -, -, -⟩ := mem_axisCandsNP.mp hay
    obtain ⟨hw, -, -, -⟩ := mem_axisCandsNP.mp haz
    subst hu; subst hv; subst hw
    rw [shiftPts_zero] at hker
    obtain ⟨ip, hip, jq, hjq, hcond, heq⟩ := mem_kernel.mp hker
    exact mem_kernel.mpr ⟨ip, (mem_cellPts.mp hip).1, jq, (mem_cellPts.mp hjq).1,
      hcond, heq⟩
  · intro h
    obtain ⟨ip, hip, jq, hjq, hcond, heq⟩ := mem_kernel.mp h
    obtain ⟨hpx0, hpxE, hpy0, hpyE, hpz0, hpzE⟩ :=
      hb1 ip.2 (snd_mem_of_mem_indexPtsFrom hip)
    obtain ⟨hqx0, hqxE, hqy0, hqyE, hqz0, hqzE⟩ :=
      hb2 jq.2 (snd_mem_of_mem_indexPtsFrom hjq)
    have hax : |ip.2.x - jq.2.x| ≤ |r| :=
      abs_le_abs_of_sq_le_sq (le_trans (sq_axis_le_distSq_x ip.2 jq.2) hcond)
    have hay : |ip.2.y - jq.2.y| ≤ |r| :=
      abs_le_abs_of_sq_le_sq (le_trans (sq_axis_le_distSq_y ip.2 jq.2) hcond)
    have haz : |ip.2.z - jq.2.z| ≤ |r| :=
      abs_le_abs_of_sq_le_sq (le_trans (sq_axis_le_distSq_z ip.2 jq.2) hcond)
    have hdx := cellIdx_diff_le hnx hpx0 hpxE hqx0 hqxE hax
    have hdy := cellIdx_diff_le hny hpy0 hpyE hqy0 hqyE hay
    have hdz := cellIdx_diff_le hnz hpz0 hpzE hqz0 hqzE haz
    have hx1 : cellIdx g.nx g.ex ip.2.x ≤
        cellIdx g.nx g.ex jq.2.x + axisSpan |r| g.nx g.ex := by omega
    have hx2 : cellIdx g.nx g.ex jq.2.x ≤
        cellIdx g.nx g.ex ip.2.x + axisSpan |r| g.nx g.ex := by omega
    have hy1 : cellIdx g.ny g.ey ip.2.y ≤
        cellIdx g.ny g.ey jq.2.y + axisSpan |r| g.ny g.ey := by omega
    have hy2 : cellIdx g.ny g.ey jq.2.y ≤
        cellIdx g.ny g.ey ip.2.y + axisSpan |r| g.ny g.ey := by omega
    have hz1 : cellIdx g.nz g.ez ip.2.z ≤
        cellIdx g.nz g.ez jq.2.z + axisSpan |r| g.nz g.ez := by omega
    have hz2 : cellIdx g.nz g.ez jq.2.z ≤
        cellIdx g.nz g.ez ip.2.z + axisSpan |r| g.nz g.ez := by omega
    rw [List.mem_flatMap]
    refine ⟨ptCell g ip.2, ?_, ?_⟩
    · show (cellIdx g.nx g.ex ip.2.x, cellIdx g.ny g.ey ip.2.y,
        cellIdx g.nz g.ez ip.2.z) ∈ allCells g
      exact mem_allCells.mpr ⟨cellIdx_lt hnx _ _, cellIdx_lt hny _ _,
        cellIdx_lt hnz _ _⟩
    · simp only [pairMatrixEngine]
      rw [List.mem_flatMap]
      refine ⟨(ptCell g jq.2, Pt.mk 0 0 0), ?_, ?_⟩
      · show ((⟨cellIdx g.nx g.ex jq.2.x, cellIdx g.ny g.ey jq.2.y,
            cellIdx g.nz g.ez jq.2.z⟩, ⟨0, 0, 0⟩) : Cell3 × Pt) ∈ _
        rw [mem_adjacentCells]
        rw [axisCands_false, axisCands_false, axisCands_false]
        exact ⟨mem_axisCandsNP.mpr ⟨rfl, cellIdx_lt hnx _ _, hx1, hx2⟩,
          mem_axisCandsNP.mpr ⟨rfl, cellIdx_lt hny _ _, hy1, hy2⟩,
          mem_axisCandsNP.mpr ⟨rfl, cellIdx_lt hnz _ _, hz1, hz2⟩⟩
      · rw [shiftPts_zero]
        exact mem_kernel.mpr ⟨ip, mem_cellPts.mpr ⟨hip, rfl⟩, jq,
          mem_cellPts.mpr ⟨hjq, rfl⟩, hcond, heq⟩

/-- The brute-force kernel is invariant under translating both point sets by
the same offsets (the enclosing-box shift). -/
theorem mem_kernel_translate (d1 d2 : List Pt) (vx vy vz : ℚ) (rsq : ℚ)
    (en : ℚ × ℕ × ℕ) :
    en ∈ pairwise_distance_no_pbc
        (indexPts (d1.map (fun p => Pt.mk (p.x - vx) (p.y - vy) (p.z - vz))))
        (indexPts (d2.map (fun p => Pt.mk (p.x - vx) (p.y - vy) (p.z - vz))))
        rsq ↔
      en ∈ pairwise_distance_no_pbc (indexPts d1) (indexPts d2) rsq := by
  rw [mem_kernel, mem_kernel]
  simp only [indexPts, indexPtsFrom_map]
  constructor
  · rintro ⟨ip', hip', jq', hjq', hcond, heq⟩
    rw [List.mem_map] at hip' hjq'
    obtain ⟨ip, hip, rfl⟩ := hip'
    obtain ⟨jq, hjq, rfl⟩ := hjq'
    rw [distSq_translate] at hcond heq
    exact ⟨ip, hip, jq, hjq, hcond, heq⟩
  · rintro ⟨ip, hip, jq, hjq, hcond, heq⟩
    refine ⟨(ip.1, Pt.mk (ip.2.x - vx) (ip.2.y - vy) (ip.2.z - vz)),
      List.mem_map.mpr ⟨ip, hip, rfl⟩,
      (jq.1, Pt.mk (jq.2.x - vx) (jq.2.y - vy) (jq.2.z - vz)),
      List.mem_map.mpr ⟨jq, hjq, rfl⟩, ?_, ?_⟩
    · rw [distSq_translate]; exact hcond
    · rw [distSq_translate]; exact heq

/-- The enclosing box contains every shifted point of both sets when the
requested margin is nonnegative. -/
theorem encloseInBox_bounds (d1 d2 : List Pt) (ms : Pt)
    (hms : 0 ≤ ms.x ∧ 0 ≤ ms.y ∧ 0 ≤ ms.z) :
    ∀ p ∈ (encloseInBox d1 d2 ms).1 ++ (encloseInBox d1 d2 ms).2.1,
      0 ≤ p.x ∧ p.x ≤ (encloseInBox d1 d2 ms).2.2.x ∧
      0 ≤ p.y ∧ p.y ≤ (encloseInBox d1 d2 ms).2.2.y ∧
      0 ≤ p.z ∧ p.z ≤ (encloseInBox d1 d2 ms).2.2.z := by
  intro p hp
  simp only [encloseInBox] at hp ⊢
  rw [← List.map_append, List.mem_map] at hp
  obtain ⟨q, hq, rfl⟩ := hp
  have hxm : listMin ((d1 ++ d2).map Pt.x) ≤ q.x :=
    listMin_le (List.mem_map.mpr ⟨q, hq, rfl⟩)
  have hxM : q.x ≤ listMax ((d1 ++ d2).map Pt.x) :=
    le_listMax (List.mem_map.mpr ⟨q, hq, rfl⟩)
  have hym : listMin ((d1 ++ d2).map Pt.y) ≤ q.y :=
    listMin_le (List.mem_map.mpr ⟨q, hq, rfl⟩)
  have hyM : q.y ≤ listMax ((d1 ++ d2).map Pt.y) :=
    le_listMax (List.mem_map.mpr ⟨q, hq, rfl⟩)
  have hzm : listMin ((d1 ++ d2).map Pt.z) ≤ q.z :=
    listMin_le (List.mem_map.mpr ⟨q, hq, rfl⟩)
  have hzM : q.z ≤ listMax ((d1 ++ d2).map Pt.z) :=
    le_listMax (List.mem_map.mpr ⟨q, hq, rfl⟩)
  obtain ⟨h1, h2, h3⟩ := hms
  dsimp only
  refine ⟨by linarith, by linarith, by linarith, by linarith, by linarith,
    by linarith⟩

theorem one_le_numDivs (extent approx : ℚ) : 1 ≤ numDivs extent approx :=
  le_max_left 1 _

theorem one_le_buildGeom_nx (per ac1 ac2 : Pt) : 1 ≤ (buildGeom per ac1 ac2).nx :=
  le_trans (one_le_numDivs per.x ac1.x) (le_max_left _ _)

theorem one_le_buildGeom_ny (per ac1 ac2 : Pt) : 1 ≤ (buildGeom per ac1 ac2).ny :=
  le_trans (one_le_numDivs per.y ac1.y) (le_max_left _ _)

theorem one_le_buildGeom_nz (per ac1 ac2 : Pt) : 1 ≤ (buildGeom per ac1 ac2).nz :=
  le_trans (one_le_numDivs per.z ac1.z) (le_max_left _ _)

theorem setApproxSizes_ok {h1 h2 : Option Pt} (per : Pt)
    (hv1 : validHint h1) (hv2 : validHint h2) :
    ∃ a1 a2, setApproxSizes h1 h2 per = .ok (a1, a2) := by
  cases h1 with
  | none =>
    cases h2 with
    | none => exact ⟨_, _, rfl⟩
    | some b =>
      refine ⟨⟨per.x / 10, per.y / 10, per.z / 10⟩, b, ?_⟩
      have hb : 0 < b.x ∧ 0 < b.y ∧ 0 < b.z := hv2
      simp only [setApproxSizes]
      rw [if_pos hb]
  | some a =>
    cases h2 with
    | none =>
      refine ⟨a, ⟨per.x / 10, per.y / 10, per.z / 10⟩, ?_⟩
      have ha : 0 < a.x ∧ 0 < a.y ∧ 0 < a.z := hv1
      simp only [setApproxSizes]
      rw [if_pos ha]
    | some b =>
      refine ⟨a, b, ?_⟩
      have ha : 0 < a.x ∧ 0 < a.y ∧ 0 < a.z := hv1
      have hb : 0 < b.x ∧ 0 < b.y ∧ 0 < b.z := hv2
      simp only [setApproxSizes]
      rw [if_pos ha, if_pos hb]

theorem dispatch_one {α β : Type} (f : α → β) (xs : List α) :
    dispatch 1 f xs = .ok (xs.map f) := by
  norm_num [dispatch]

/-- Characterization of a successful non-periodic serial `pair_matrix` call:
with a nonnegative threshold and well-formed (or absent) cell-size hints the
call returns a matrix of shape (N1, N2) whose entry set is exactly the
brute-force oracle's. -/
theorem pair_matrix_char (data1 data2 : List Pt) (r : ℚ) (h1 h2 : Option Pt)
    (cpu : ℤ) (hr : 0 ≤ r) (hv1 : validHint h1) (hv2 : validHint h2) :
    ∃ M : CooMatrix,
      pair_matrix data1 data2 r none false (.int 1) h1 h2 cpu = .ok M ∧
      M.shape1 = data1.length ∧ M.shape2 = data2.length ∧
      ∀ en, en ∈ M.entries ↔ en ∈ bruteForceEntries data1 data2 r := by
  obtain ⟨a1, a2, hset⟩ := setApproxSizes_ok
    (encloseInBox data1 data2 ⟨3 * r, 3 * r, 3 * r⟩).2.2 hv1 hv2
  have hpa : processArgs data1 data2 none (.int 1) ⟨r, r, r⟩ cpu =
      .ok ((encloseInBox data1 data2 ⟨3 * r, 3 * r, 3 * r⟩).1,
        (encloseInBox data1 data2 ⟨3 * r, 3 * r, 3 * r⟩).2.1,
        (encloseInBox data1 data2 ⟨3 * r, 3 * r, 3 * r⟩).2.2, 1, false) := rfl
  have hcall : pair_matrix data1 data2 r none false (.int 1) h1 h2 cpu =
      .ok ⟨data1.length, data2.length,
        ((allCells (buildGeom (encloseInBox data1 data2 ⟨3 * r, 3 * r, 3 * r⟩).2.2
            a1 a2)).map
          (pairMatrixEngine
            (buildGeom (encloseInBox data1 data2 ⟨3 * r, 3 * r, 3 * r⟩).2.2 a1 a2)
            (indexPts (encloseInBox data1 data2 ⟨3 * r, 3 * r, 3 * r⟩).1)
            (indexPts (encloseInBox data1 data2 ⟨3 * r, 3 * r, 3 * r⟩).2.1)
            false (encloseInBox data1 data2 ⟨3 * r, 3 * r, 3 * r⟩).2.2
            (r ^ 2) |r|)).flatten⟩ := by
    simp only [pair_matrix, hpa, hset, dispatch_one, Bool.false_eq_true,
      if_false]
  refine ⟨_, hcall, rfl, rfl, ?_⟩
  intro en
  have hbnd := encloseInBox_bounds data1 data2 ⟨3 * r, 3 * r, 3 * r⟩
    ⟨by dsimp only; linarith, by dsimp only; linarith, by dsimp only; linarith⟩
  have hiff := mem_engine_entries_iff
    (buildGeom (encloseInBox data1 data2 ⟨3 * r, 3 * r, 3 * r⟩).2.2 a1 a2)
    (encloseInBox data1 data2 ⟨3 * r, 3 * r, 3 * r⟩).1
    (encloseInBox data1 data2 ⟨3 * r, 3 * r, 3 * r⟩).2.1
    r (encloseInBox data1 data2 ⟨3 * r, 3 * r, 3 * r⟩).2.2
    (one_le_buildGeom_nx _ _ _) (one_le_buildGeom_ny _ _ _)
    (one_le_buildGeom_nz _ _ _)
    (fun p hp => hbnd p (List.mem_append_left _ hp))
    (fun p hp => hbnd p (List.mem_append_right _ hp))
    en
  have hE1 : (encloseInBox data1 data2 (⟨3 * r, 3 * r, 3 * r⟩ : Pt)).1 =
      data1.map (fun p => Pt.mk
        (p.x - listMin ((data1 ++ data2).map Pt.x))
        (p.y - listMin ((data1 ++ data2).map Pt.y))
        (p.z - listMin ((data1 ++ data2).map Pt.z))) := rfl
  have hE2 : (encloseInBox data1 data2 (⟨3 * r, 3 * r, 3 * r⟩ : Pt)).2.1 =
      data2.map (fun p => Pt.mk
        (p.x - listMin ((data1 ++ data2).map Pt.x))
        (p.y - listMin ((data1 ++ data2).map Pt.y))
        (p.z - listMin ((data1 ++ data2).map Pt.z))) := rfl
  calc en ∈ (((allCells (buildGeom
          (encloseInBox data1 data2 ⟨3 * r, 3 * r, 3 * r⟩).2.2 a1 a2)).map
        (pairMatrixEngine
          (buildGeom (encloseInBox data1 data2 ⟨3 * r, 3 * r, 3 * r⟩).2.2 a1 a2)
          (indexPts (encloseInBox data1 data2 ⟨3 * r, 3 * r, 3 * r⟩).1)
          (indexPts (encloseInBox data1 data2 ⟨3 * r, 3 * r, 3 * r⟩).2.1)
          false (encloseInBox data1 data2 ⟨3 * r, 3 * r, 3 * r⟩).2.2
          (r ^ 2) |r|)).flatten)
      ↔ en ∈ (allCells (buildGeom
          (encloseInBox data1 data2 ⟨3 * r, 3 * r, 3 * r⟩).2.2 a1 a2)).flatMap
        (pairMatrixEngine
          (buildGeom (encloseInBox data1 data2 ⟨3 * r, 3 * r, 3 * r⟩).2.2 a1 a2)
          (indexPts (encloseInBox data1 data2 ⟨3 * r, 3 * r, 3 * r⟩).1)
          (indexPts (encloseInBox data1 data2 ⟨3 * r, 3 * r, 3 * r⟩).2.1)
          false (encloseInBox data1 data2 ⟨3 * r, 3 * r, 3 * r⟩).2.2
          (r ^ 2) |r|) := by
        rw [List.flatMap_def]
    _ ↔ en ∈ pairwise_distance_no_pbc
        (indexPts (encloseInBox data1 data2 ⟨3 * r, 3 * r, 3 * r⟩).1)
        (indexPts (encloseInBox data1 data2 ⟨3 * r, 3 * r, 3 * r⟩).2.1)
        (r ^ 2) := hiff
    _ ↔ en ∈ bruteForceEntries data1 data2 r := by
        rw [hE1, hE2]
        exact mem_kernel_translate data1 data2 _ _ _ (r ^ 2) en

theorem mem_kernel_self_symm {A : List Pt} {rsq d : ℚ} {i j : ℕ}
    (h : (d, i, j) ∈ pairwise_distance_no_pbc (indexPts A) (indexPts A) rsq) :
    (d, j, i) ∈ pairwise_distance_no_pbc (indexPts A) (indexPts A) rsq := by
  obtain ⟨ip, hip, jq, hjq, hcond, heq⟩ := mem_kernel.mp h
  injection heq with h1 h23
  injection h23 with h2 h3
  subst h1; subst h2; subst h3
  refine mem_kernel.mpr ⟨jq, hjq, ip, hip, ?_, ?_⟩
  · rwa [distSq_comm]
  · rw [distSq_comm]

/-- C7: for every point set `A` and nonnegative threshold `r`, the call
`pair_matrix(A, A, r)` (defaults: no period, serial, default cell-size
hints) succeeds and returns a symmetric matrix: entry (i, j) is present with
(squared) value `d` exactly when (j, i) is, and every diagonal entry (i, i)
with i < |A| is present with value 0 — the kernel does not special-case
self-pairs.  (Entries store squared separations; the diagonal's stored 0 is
the distance 0.) -/
theorem C7_pair_matrix_self_symmetric (A : List Pt) (r : ℚ) (cpu : ℤ)
    (hr : 0 ≤ r) :
    ∃ M : CooMatrix,
      pair_matrix A A r none false (.int 1) none none cpu = .ok M ∧
      (∀ d i j, (d, i, j) ∈ M.entries ↔ (d, j, i) ∈ M.entries) ∧
      (∀ i, i < A.length → ((0 : ℚ), i, i) ∈ M.entries) := by
  obtain ⟨M, hM, _, _, hent⟩ :=
    pair_matrix_char A A r none none cpu hr trivial trivial
  refine ⟨M, hM, ?_, ?_⟩
  · intro d i j
    rw [hent, hent]
    exact ⟨mem_kernel_self_symm, mem_kernel_self_symm⟩
  · intro i hi
    rw [hent]
    obtain ⟨p, hp⟩ := exists_mem_indexPtsFrom (l := A) (k := 0) (i := i) hi
    rw [Nat.zero_add] at hp
    refine mem_kernel.mpr ⟨(i, p), hp, (i, p), hp, ?_, ?_⟩
    · show distSq p p ≤ r ^ 2
      rw [distSq_self]
      positivity
    · show ((0 : ℚ), i, i) = (distSq p p, i, i)
      rw [distSq_self]

/-- C7 witness at a concrete input. -/
theorem C7_pair_matrix_self_symmetric_witness :
    (0 : ℚ) ≤ 1 ∧
    ∃ M : CooMatrix,
      pair_matrix [⟨0, 0, 0⟩, ⟨2, 0, 0⟩] [⟨0, 0, 0⟩, ⟨2, 0, 0⟩] 1 none false
        (.int 1) none none 1 = .ok M ∧
      (∀ d i j, (d, i, j) ∈ M.entries ↔ (d, j, i) ∈ M.entries) ∧
      (∀ i, i < (([⟨0, 0, 0⟩, ⟨2, 0, 0⟩] : List Pt)).length →
        ((0 : ℚ), i, i) ∈ M.entries) :=
  ⟨by norm_num,
    C7_pair_matrix_self_symmetric [⟨0, 0, 0⟩, ⟨2, 0, 0⟩] 1 1 (by norm_num)⟩

/-- C6: for any two point sets, any nonnegative threshold and any two pairs
of well-formed (or absent) cell-size hints, the (non-periodic, serial)
`pair_matrix` call succeeds under both hint choices and the two results have
the same shape and exactly the same set of (squared value, row, column)
entries: the hint is a performance knob only. -/
theorem C6_pair_matrix_hint_invariance (data1 data2 : List Pt) (r : ℚ)
    (h1 h2 h1' h2' : Option Pt) (cpu : ℤ) (hr : 0 ≤ r)
    (hv1 : validHint h1) (hv2 : validHint h2)
    (hv1' : validHint h1') (hv2' : validHint h2') :
    ∃ M M' : CooMatrix,
      pair_matrix data1 data2 r none false (.int 1) h1 h2 cpu = .ok M ∧
      pair_matrix data1 data2 r none false (.int 1) h1' h2' cpu = .ok M' ∧
      M.shape1 = M'.shape1 ∧ M.shape2 = M'.shape2 ∧
      (∀ en, en ∈ M.entries ↔ en ∈ M'.entries) := by
  obtain ⟨M, hM, hMs1, hMs2, hMe⟩ :=
    pair_matrix_char data1 data2 r h1 h2 cpu hr hv1 hv2
  obtain ⟨M', hM', hMs1', hMs2', hMe'⟩ :=
    pair_matrix_char data1 data2 r h1' h2' cpu hr hv1' hv2'
  refine ⟨M, M', hM, hM', by rw [hMs1, hMs1'], by rw [hMs2, hMs2'], ?_⟩
  intro en
  rw [hMe en, hMe' en]

/-- C6 witness at a concrete input with two different hint choices. -/
theorem C6_pair_matrix_hint_invariance_witness :
    ((0 : ℚ) ≤ 1 ∧ validHint none ∧ validHint none ∧
      validHint (some ⟨5, 5, 5⟩) ∧ validHint (some ⟨1/4, 1/4, 1/4⟩)) ∧
    ∃ M M' : CooMatrix,
      pair_matrix [⟨0, 0, 0⟩] [⟨1/2, 0, 0⟩] 1 none false (.int 1) none none 7 =
        .ok M ∧
      pair_matrix [⟨0, 0, 0⟩] [⟨1/2, 0, 0⟩] 1 none false (.int 1)
        (some ⟨5, 5, 5⟩) (some ⟨1/4, 1/4, 1/4⟩) 7 = .ok M' ∧
      M.shape1 = M'.shape1 ∧ M.shape2 = M'.shape2 ∧
      (∀ en, en ∈ M.entries ↔ en ∈ M'.entries) :=
  ⟨⟨by norm_num, trivial, trivial, by constructor <;> norm_num, by
      constructor <;> norm_num⟩,
    C6_pair_matrix_hint_invariance [⟨0, 0, 0⟩] [⟨1/2, 0, 0⟩] 1 none none
      (some ⟨5, 5, 5⟩) (some ⟨1/4, 1/4, 1/4⟩) 7 (by norm_num) trivial trivial
      (by constructor <;> norm_num) (by constructor <;> norm_num)⟩

theorem C2_brute_force_value :
    bruteForceEntries [⟨0, 0, 0⟩] [⟨0, 0, 0⟩, ⟨1/2, 0, 0⟩, ⟨2, 0, 0⟩] (3/5) =
      [((0 : ℚ), 0, 0), ((1/4 : ℚ), 0, 1)] := by
  norm_num [bruteForceEntries, pairwise_distance_no_pbc, indexPts,
    indexPtsFrom, distSq, List.filterMap_cons]

/-- C2: `pair_matrix` on points1 = [[0,0,0]],
points2 = [[0,0,0],[0.5,0,0],[2,0,0]], r_max = 0.6, period = None (all other
arguments at their defaults) returns a 1-by-3 sparse matrix whose set of
entries is exactly {(0,0,0.0), (0,1,0.5)}: position (i,j) carries distance
value v (v·v equal to the stored squared separation, v ≥ 0) precisely for
(0,0,0) and (0,1,1/2); in particular no entry involves column index 2. -/
theorem C2_pair_matrix_concrete_scenario :
    ∃ M : CooMatrix,
      pair_matrix [⟨0, 0, 0⟩] [⟨0, 0, 0⟩, ⟨1/2, 0, 0⟩, ⟨2, 0, 0⟩] (3/5) none
        false (.int 1) none none 1 = .ok M ∧
      M.shape1 = 1 ∧ M.shape2 = 3 ∧
      (∀ i j v, (∃ s, (s, i, j) ∈ M.entries ∧ v * v = s ∧ 0 ≤ v) ↔
        ((i = 0 ∧ j = 0 ∧ v = 0) ∨ (i = 0 ∧ j = 1 ∧ v = (1/2 : ℚ)))) := by
  obtain ⟨M, hM, hs1, hs2, hent⟩ :=
    pair_matrix_char [⟨0, 0, 0⟩] [⟨0, 0, 0⟩, ⟨1/2, 0, 0⟩, ⟨2, 0, 0⟩] (3/5)
      none none 1 (by norm_num) trivial trivial
  refine ⟨M, hM, hs1, hs2, ?_⟩
  intro i j v
  constructor
  · rintro ⟨s, hmem, hv, hv0⟩
    have h := (hent (s, i, j)).mp hmem
    rw [C2_brute_force_value] at h
    rcases List.mem_cons.mp h with heq | h
    · injection heq with e1 e23
      injection e23 with e2 e3
      subst e1; subst e2; subst e3
      left
      refine ⟨rfl, rfl, ?_⟩
      exact mul_self_eq_zero.mp hv
    · rcases List.mem_cons.mp h with heq | h
      · injection heq with e1 e23
        injection e23 with e2 e3
        subst e1; subst e2; subst e3
        right
        refine ⟨rfl, rfl, ?_⟩
        have hq : (v - 1/2) * (v + 1/2) = 0 := by linear_combination hv
        rcases mul_eq_zero.mp hq with h0 | h0
        · linarith
        · linarith
      · cases h
  · rintro (⟨rfl, rfl, rfl⟩ | ⟨rfl, rfl, rfl⟩)
    · refine ⟨0, (hent _).mpr ?_, by norm_num, le_refl 0⟩
      rw [C2_brute_force_value]
      exact List.mem_cons_self ..
    · refine ⟨1/4, (hent _).mpr ?_, by norm_num, by norm_num⟩
      rw [C2_brute_force_value]
      exact List.mem_cons_of_mem _ (List.mem_cons_self ..)

/-- C3: with `period` absent (`None`) and a nonnegative search radius,
`_process_args` succeeds with PBCs off and its returned domain is an
automatically computed axis-aligned box that encloses both (shifted) point
sets, and along every axis the box extent exceeds the point spread of the
caller's two sets by at least three times the search radius (for
`pair_matrix` the search radius is `r_max` on every axis). -/
theorem C3_enclosing_box_margin (data1 data2 : List Pt) (r : ℚ) (cpu : ℤ)
    (hr : 0 ≤ r) :
    ∃ e1 e2 per,
      processArgs data1 data2 none (.int 1) ⟨r, r, r⟩ cpu =
        .ok (e1, e2, per, 1, false) ∧
      (∀ p ∈ e1 ++ e2, 0 ≤ p.x ∧ p.x ≤ per.x ∧ 0 ≤ p.y ∧ p.y ≤ per.y ∧
        0 ≤ p.z ∧ p.z ≤ per.z) ∧
      (∀ p ∈ data1 ++ data2, ∀ q ∈ data1 ++ data2,
        (p.x - q.x) + 3 * r ≤ per.x ∧ (p.y - q.y) + 3 * r ≤ per.y ∧
        (p.z - q.z) + 3 * r ≤ per.z) := by
  refine ⟨(encloseInBox data1 data2 ⟨3 * r, 3 * r, 3 * r⟩).1,
    (encloseInBox data1 data2 ⟨3 * r, 3 * r, 3 * r⟩).2.1,
    (encloseInBox data1 data2 ⟨3 * r, 3 * r, 3 * r⟩).2.2, rfl, ?_, ?_⟩
  · exact encloseInBox_bounds data1 data2 ⟨3 * r, 3 * r, 3 * r⟩
      ⟨by dsimp only; linarith, by dsimp only; linarith,
        by dsimp only; linarith⟩
  · intro p hp q hq
    have hpx : p.x ≤ listMax ((data1 ++ data2).map Pt.x) :=
      le_listMax (List.mem_map.mpr ⟨p, hp, rfl⟩)
    have hqx : listMin ((data1 ++ data2).map Pt.x) ≤ q.x :=
      listMin_le (List.mem_map.mpr ⟨q, hq, rfl⟩)
    have hpy : p.y ≤ listMax ((data1 ++ data2).map Pt.y) :=
      le_listMax (List.mem_map.mpr ⟨p, hp, rfl⟩)
    have hqy : listMin ((data1 ++ data2).map Pt.y) ≤ q.y :=
      listMin_le (List.mem_map.mpr ⟨q, hq, rfl⟩)
    have hpz : p.z ≤ listMax ((data1 ++ data2).map Pt.z) :=
      le_listMax (List.mem_map.mpr ⟨p, hp, rfl⟩)
    have hqz : listMin ((data1 ++ data2).map Pt.z) ≤ q.z :=
      listMin_le (List.mem_map.mpr ⟨q, hq, rfl⟩)
    refine ⟨?_, ?_, ?_⟩
    · show p.x - q.x + 3 * r ≤ listMax ((data1 ++ data2).map Pt.x) -
        listMin ((data1 ++ data2).map Pt.x) + 3 * r
      linarith
    · show p.y - q.y + 3 * r ≤ listMax ((data1 ++ data2).map Pt.y) -
        listMin ((data1 ++ data2).map Pt.y) + 3 * r
      linarith
    · show p.z - q.z + 3 * r ≤ listMax ((data1 ++ data2).map Pt.z) -
        listMin ((data1 ++ data2).map Pt.z) + 3 * r
      linarith

/-- C3 witness at a concrete input. -/
theorem C3_enclosing_box_margin_witness :
    (0 : ℚ) ≤ 1 ∧
    ∃ e1 e2 per,
      processArgs [(⟨0, 0, 0⟩ : Pt)] [⟨1, 0, 0⟩] none (.int 1) ⟨1, 1, 1⟩ 2 =
        .ok (e1, e2, per, 1, false) ∧
      (∀ p ∈ e1 ++ e2, 0 ≤ p.x ∧ p.x ≤ per.x ∧ 0 ≤ p.y ∧ p.y ≤ per.y ∧
        0 ≤ p.z ∧ p.z ≤ per.z) ∧
      (∀ p ∈ ([(⟨0, 0, 0⟩ : Pt)] ++ [⟨1, 0, 0⟩] : List Pt),
        ∀ q ∈ ([(⟨0, 0, 0⟩ : Pt)] ++ [⟨1, 0, 0⟩] : List Pt),
        (p.x - q.x) + 3 * 1 ≤ per.x ∧ (p.y - q.y) + 3 * 1 ≤ per.y ∧
        (p.z - q.z) + 3 * 1 ≤ per.z) :=
  ⟨by norm_num, C3_enclosing_box_margin [⟨0, 0, 0⟩] [⟨1, 0, 0⟩] 1 2
    (by norm_num)⟩

theorem dispatch_eight {α β : Type} (f : α → β) (xs : List α) :
    dispatch 8 f xs = dispatch 1 f xs := by
  norm_num [dispatch, poolMap]

theorem processArgs_int (d1 d2 : List Pt) (period : Option (List PFloat))
    (sdm : Pt) (cpu : ℤ) (n : ℤ) :
    processArgs d1 d2 period (.int n) sdm cpu =
      match processPeriod d1 d2 period sdm with
      | .error e => .error e
      | .ok (e1, e2, per, PBCs) => .ok (e1, e2, per, n, PBCs) := rfl

/-- C5: the result of `pair_matrix` (and of `xy_z_pair_matrix`) is literally
the same — hence the same unordered set of entries — whether the work is
dispatched to a `multiprocessing.Pool` of 8 workers or run serially with
`num_threads = 1`: the per-cell work units are independent and the pool
collects their results in task order. -/
theorem C5_worker_count_invariance (data1 data2 : List Pt) (r rp piM : ℚ)
    (period : Option (List PFloat)) (verbose : Bool) (h1 h2 : Option Pt)
    (cpu : ℤ) :
    pair_matrix data1 data2 r period verbose (.int 8) h1 h2 cpu =
      pair_matrix data1 data2 r period verbose (.int 1) h1 h2 cpu ∧
    xy_z_pair_matrix data1 data2 rp piM period verbose (.int 8) h1 h2 cpu =
      xy_z_pair_matrix data1 data2 rp piM period verbose (.int 1) h1 h2 cpu := by
  constructor
  · simp only [pair_matrix, processArgs_int]
    cases processPeriod data1 data2 period ⟨r, r, r⟩ with
    | error e => rfl
    | ok t =>
      obtain ⟨e1, e2, per, PBCs⟩ := t
      cases setApproxSizes h1 h2 per with
      | error e => rfl
      | ok u =>
        obtain ⟨a1, a2⟩ := u
        cases verbose with
        | true => rfl
        | false => simp only [dispatch_eight]
  · simp only [xy_z_pair_matrix, processArgs_int]
    cases processPeriod data1 data2 period ⟨rp, rp, piM⟩ with
    | error e => rfl
    | ok t =>
      obtain ⟨e1, e2, per, PBCs⟩ := t
      cases setApproxSizes h1 h2 per with
      | error e => rfl
      | ok u =>
        obtain ⟨a1, a2⟩ := u
        cases verbose with
        | true => rfl
        | false => simp only [dispatch_eight]

theorem dispatch_nonpos {α β : Type} (n : ℤ) (hn : n ≤ 0) (f : α → β)
    (xs : List α) : dispatch n f xs = .error .nameError := by
  rw [dispatch, if_neg (by omega), if_neg (by omega)]

/-- C4 counterexample: `num_threads = 0` is neither an integer ≥ 1 nor the
string 'max', yet `pair_matrix` does not reject it with the configuration
error: the integer 0 passes the `isinstance(num_threads, int)` validation,
the grid is built, and the call only fails afterwards with a `NameError`
because neither dispatch branch assigned `result`. -/
theorem C4_counterexample :
    pair_matrix [⟨0, 0, 0⟩] [⟨0, 0, 0⟩] 1 none false (.int 0) none none 4 =
      .error .nameError ∧ PyErr.nameError ≠ PyErr.halotoolsError := by
  constructor
  · have hpa : processArgs [(⟨0, 0, 0⟩ : Pt)] [⟨0, 0, 0⟩] none (.int 0)
        ⟨1, 1, 1⟩ 4 =
        .ok ((encloseInBox [⟨0, 0, 0⟩] [⟨0, 0, 0⟩] ⟨3 * 1, 3 * 1, 3 * 1⟩).1,
          (encloseInBox [⟨0, 0, 0⟩] [⟨0, 0, 0⟩] ⟨3 * 1, 3 * 1, 3 * 1⟩).2.1,
          (encloseInBox [⟨0, 0, 0⟩] [⟨0, 0, 0⟩] ⟨3 * 1, 3 * 1, 3 * 1⟩).2.2,
          0, false) := rfl
    simp only [pair_matrix, hpa, setApproxSizes, Bool.false_eq_true, if_false,
      dispatch_nonpos 0 (le_refl 0)]
  · decide

/-- C4 amended: only a non-integer `num_threads` (a float, or a string other
than 'max') is rejected with the configuration error (`HalotoolsError`)
before any grid is built; every integer — including 0 and negative values —
passes the validation, and for n ≤ 1 other than 1 the call instead fails
with a `NameError` after the double tree has been built, because neither
dispatch branch ran. -/
theorem C4_num_threads_validation (data1 data2 : List Pt) (r : ℚ)
    (period : Option (List PFloat)) (verbose : Bool) (h1 h2 : Option Pt)
    (cpu : ℤ) :
    (∀ q : ℚ,
      pair_matrix data1 data2 r period verbose (.float q) h1 h2 cpu =
        .error .halotoolsError ∧
      xy_z_pair_matrix data1 data2 r r period verbose (.float q) h1 h2 cpu =
        .error .halotoolsError) ∧
    (∀ s : String, s ≠ "max" →
      pair_matrix data1 data2 r period verbose (.str s) h1 h2 cpu =
        .error .halotoolsError ∧
      xy_z_pair_matrix data1 data2 r r period verbose (.str s) h1 h2 cpu =
        .error .halotoolsError) ∧
    (∀ n : ℤ, n ≤ 0 → validHint h1 → validHint h2 →
      pair_matrix data1 data2 r none false (.int n) h1 h2 cpu =
        .error .nameError) := by
  refine ⟨fun q => ⟨rfl, rfl⟩, fun s hs => ?_, fun n hn hv1 hv2 => ?_⟩
  · constructor
    · simp only [pair_matrix, processArgs, processNumThreads, if_neg hs]
    · simp only [xy_z_pair_matrix, processArgs, processNumThreads, if_neg hs]
  · obtain ⟨a1, a2, hset⟩ := setApproxSizes_ok
      (encloseInBox data1 data2 ⟨3 * r, 3 * r, 3 * r⟩).2.2 hv1 hv2
    have hpa : processArgs data1 data2 none (.int n) ⟨r, r, r⟩ cpu =
        .ok ((encloseInBox data1 data2 ⟨3 * r, 3 * r, 3 * r⟩).1,
          (encloseInBox data1 data2 ⟨3 * r, 3 * r, 3 * r⟩).2.1,
          (encloseInBox data1 data2 ⟨3 * r, 3 * r, 3 * r⟩).2.2,
          n, false) := rfl
    simp only [pair_matrix, hpa, hset, Bool.false_eq_true, if_false,
      dispatch_nonpos n hn]

/-- C4 witness: the amended claim at concrete inputs. -/
theorem C4_num_threads_validation_witness :
    (pair_matrix [⟨0, 0, 0⟩] [⟨0, 0, 0⟩] 1 none false (.float (1/2)) none none
        4 = .error .halotoolsError ∧
      xy_z_pair_matrix [⟨0, 0, 0⟩] [⟨0, 0, 0⟩] 1 1 none false (.float (1/2))
        none none 4 = .error .halotoolsError) ∧
    ("fast" ≠ "max" ∧
      pair_matrix [⟨0, 0, 0⟩] [⟨0, 0, 0⟩] 1 none false (.str "fast") none none
        4 = .error .halotoolsError) ∧
    ((-2 : ℤ) ≤ 0 ∧
      pair_matrix [⟨0, 0, 0⟩] [⟨0, 0, 0⟩] 1 none false (.int (-2)) none none 4 =
        .error .nameError) :=
  ⟨(C4_num_threads_validation [⟨0, 0, 0⟩] [⟨0, 0, 0⟩] 1 none false none none
      4).1 (1/2),
    ⟨by decide,
      ((C4_num_threads_validation [⟨0, 0, 0⟩] [⟨0, 0, 0⟩] 1 none false none
        none 4).2.1 "fast" (by decide)).1⟩,
    ⟨by norm_num,
      (C4_num_threads_validation [⟨0, 0, 0⟩] [⟨0, 0, 0⟩] 1 none false none
        none 4).2.2 (-2) (by norm_num) trivial trivial⟩⟩

/-- A period component that the validation of `_process_args` must reject:
non-finite (`inf` or `nan`) or non-positive. -/
def badPeriodComponent (c : PFloat) : Prop :=
  c = .inf ∨ c = .nan ∨ ∃ q, c = .fin q ∧ q ≤ 0

/-- C8: a single-scalar `period` is broadcast to a cubic length-3 vector
(the call is literally the same as with the explicit cubic vector), and
whenever any component of the resulting vector is non-positive or
non-finite, the call fails with the configuration error (`HalotoolsError`)
raised by `_process_args` — before any grid is built — and no result is
returned. -/
theorem C8_period_broadcast_and_validation (data1 data2 : List Pt) (r : ℚ)
    (verbose : Bool) (h1 h2 : Option Pt) (cpu : ℤ) :
    (∀ s : PFloat,
      pair_matrix data1 data2 r (some [s]) verbose (.int 1) h1 h2 cpu =
        pair_matrix data1 data2 r (some [s, s, s]) verbose (.int 1) h1 h2
          cpu) ∧
    (∀ ps : List PFloat,
      (∃ c ∈ broadcastPeriod ps, badPeriodComponent c) →
      pair_matrix data1 data2 r (some ps) verbose (.int 1) h1 h2 cpu =
        .error .halotoolsError) := by
  constructor
  · intro s
    rfl
  · rintro ps ⟨c, hc, hbad⟩
    have hfail : ¬((broadcastPeriod ps).all PFloat.ltInf = true ∧
        (broadcastPeriod ps).all PFloat.gtZero = true) := by
      rintro ⟨hall1, hall2⟩
      rcases hbad with rfl | rfl | ⟨q, rfl, hq⟩
      · have := List.all_eq_true.mp hall1 _ hc
        simp [PFloat.ltInf] at this
      · have := List.all_eq_true.mp hall1 _ hc
        simp [PFloat.ltInf] at this
      · have := List.all_eq_true.mp hall2 _ hc
        rw [PFloat.gtZero] at this
        rw [decide_eq_true_eq] at this
        linarith
    simp only [pair_matrix, processArgs, processNumThreads, processPeriod,
      if_neg hfail]

/-- C8 witness: a zero scalar period is broadcast and rejected. -/
theorem C8_period_broadcast_and_validation_witness :
    (∃ c ∈ broadcastPeriod [PFloat.fin 0], badPeriodComponent c) ∧
    pair_matrix [⟨0, 0, 0⟩] [⟨0, 0, 0⟩] 1 (some [PFloat.fin 0]) false (.int 1)
      none none 4 = .error .halotoolsError := by
  have hmem : ∃ c ∈ broadcastPeriod [PFloat.fin 0], badPeriodComponent c :=
    ⟨PFloat.fin 0, by simp [broadcastPeriod],
      Or.inr (Or.inr ⟨0, rfl, le_refl 0⟩)⟩
  exact ⟨hmem,
    (C8_period_broadcast_and_validation [⟨0, 0, 0⟩] [⟨0, 0, 0⟩] 1 false none
      none 4).2 [PFloat.fin 0] hmem⟩

/-- C9: whenever argument processing and cell-size selection succeed (so the
call would otherwise proceed), `verbose=True` makes both `pair_matrix` and
`xy_z_pair_matrix` fail with an undefined-name error — the verbose branch
reads `grid1`, which neither function defines — so no result is returned
and the documented progress printing is unreachable. -/
theorem C9_verbose_name_error (data1 data2 : List Pt) (r rp piM : ℚ)
    (period : Option (List PFloat)) (nt : NTArg) (h1 h2 : Option Pt) (cpu : ℤ)
    (t u : List Pt × List Pt × Pt × ℤ × Bool) (s1 s2 : Pt × Pt)
    (hpa : processArgs data1 data2 period nt ⟨r, r, r⟩ cpu = .ok t)
    (hset : setApproxSizes h1 h2 t.2.2.1 = .ok s1)
    (hpaX : processArgs data1 data2 period nt ⟨rp, rp, piM⟩ cpu = .ok u)
    (hsetX : setApproxSizes h1 h2 u.2.2.1 = .ok s2) :
    pair_matrix data1 data2 r period true nt h1 h2 cpu = .error .nameError ∧
    xy_z_pair_matrix data1 data2 rp piM period true nt h1 h2 cpu =
      .error .nameError := by
  obtain ⟨e1, e2, per, nt', PBCs⟩ := t
  obtain ⟨a1, a2⟩ := s1
  obtain ⟨f1, f2, perX, ntX, PBCsX⟩ := u
  obtain ⟨b1, b2⟩ := s2
  dsimp only at hset hsetX
  constructor
  · simp only [pair_matrix, hpa, hset, if_true]
  · simp only [xy_z_pair_matrix, hpaX, hsetX, if_true]

/-- C9 witness: concrete arguments for which processing succeeds and the
verbose call returns the undefined-name error. -/
theorem C9_verbose_name_error_witness :
    (processArgs [(⟨0, 0, 0⟩ : Pt)] [⟨0, 0, 0⟩] none (.int 1) ⟨1, 1, 1⟩ 1 =
      .ok ((encloseInBox [⟨0, 0, 0⟩] [⟨0, 0, 0⟩] ⟨3 * 1, 3 * 1, 3 * 1⟩).1,
        (encloseInBox [⟨0, 0, 0⟩] [⟨0, 0, 0⟩] ⟨3 * 1, 3 * 1, 3 * 1⟩).2.1,
        (encloseInBox [⟨0, 0, 0⟩] [⟨0, 0, 0⟩] ⟨3 * 1, 3 * 1, 3 * 1⟩).2.2,
        1, false)) ∧
    pair_matrix [⟨0, 0, 0⟩] [⟨0, 0, 0⟩] 1 none true (.int 1) none none 1 =
      .error .nameError ∧
    xy_z_pair_matrix [⟨0, 0, 0⟩] [⟨0, 0, 0⟩] 1 1 none true (.int 1) none none
      1 = .error .nameError :=
  ⟨rfl,
    C9_verbose_name_error [⟨0, 0, 0⟩] [⟨0, 0, 0⟩] 1 1 1 none (.int 1) none
      none 1 _ _ _ _ rfl rfl rfl rfl⟩

theorem C1_enclose :
    encloseInBox [(⟨0, 0, 0⟩ : Pt)] [⟨0, 0, 3/2⟩]
        ⟨3 * (1/2), 3 * (1/2), 3 * 2⟩ =
      ([⟨0, 0, 0⟩], [⟨0, 0, 3/2⟩], ⟨3/2, 3/2, 15/2⟩) := by
  norm_num [encloseInBox, listMin, listMax]

theorem C1_geom :
    buildGeom ⟨3/2, 3/2, 15/2⟩ ⟨8, 8, 8⟩ ⟨8, 8, 8⟩ =
      ⟨1, 1, 1, 3/2, 3/2, 15/2⟩ := by
  have h1 : ⌊(3/2 : ℚ) / 8⌋ = 0 := by norm_num [Int.floor_eq_iff]
  have h2 : ⌊(15/2 : ℚ) / 8⌋ = 0 := by norm_num [Int.floor_eq_iff]
  simp [buildGeom, numDivs, h1, h2]

theorem C1_allCells :
    allCells ⟨1, 1, 1, 3/2, 3/2, 15/2⟩ = [(0, 0, 0)] := by
  decide

theorem C1_abs_half : |(1/2 : ℚ)| = 1/2 := by norm_num

theorem C1_span_xy : axisSpan |(1/2 : ℚ)| 1 (3/2) = 1 := by
  unfold axisSpan
  rw [C1_abs_half,
    show ⌈((1 : ℚ)/2) * (1 : ℕ) / (3/2)⌉ = 1 from by norm_num [Int.ceil_eq_iff]]
  rfl

theorem C1_span_z : axisSpan |(1/2 : ℚ)| 1 (15/2) = 1 := by
  unfold axisSpan
  rw [C1_abs_half,
    show ⌈((1 : ℚ)/2) * (1 : ℕ) / (15/2)⌉ = 1 from by
      norm_num [Int.ceil_eq_iff]]
  rfl

theorem C1_cands : axisCandsNP 1 1 0 = [(0, (0 : ℚ))] := by decide

theorem C1_adj :
    adjacentCells ⟨1, 1, 1, 3/2, 3/2, 15/2⟩ false ⟨3/2, 3/2, 15/2⟩
        |(1/2 : ℚ)| |(1/2 : ℚ)| |(1/2 : ℚ)| (0, 0, 0) =
      [((0, 0, 0), ⟨0, 0, 0⟩)] := by
  simp only [adjacentCells, axisCands_false]
  rw [C1_span_xy, C1_span_z, C1_cands]
  simp

theorem C1_cell1 :
    cellPts ⟨1, 1, 1, 3/2, 3/2, 15/2⟩ (indexPts [⟨0, 0, 0⟩]) (0, 0, 0) =
      [(0, ⟨0, 0, 0⟩)] := by
  simp [cellPts, indexPts, indexPtsFrom, ptCell, cellIdx]

theorem C1_cell2 :
    cellPts ⟨1, 1, 1, 3/2, 3/2, 15/2⟩ (indexPts [⟨0, 0, 3/2⟩]) (0, 0, 0) =
      [(0, ⟨0, 0, 3/2⟩)] := by
  have hz : ⌊(3/2 : ℚ) * (1 : ℕ) / (15/2)⌋ = 0 := by
    norm_num [Int.floor_eq_iff]
  simp [cellPts, indexPts, indexPtsFrom, ptCell, cellIdx, hz]

theorem C1_kernel :
    pairwise_xy_z_distance_no_pbc [(0, ⟨0, 0, 0⟩)]
        (shiftPts ⟨0, 0, 0⟩ [(0, ⟨0, 0, 3/2⟩)]) ((1/2 : ℚ) ^ 2)
        ((1/2 : ℚ) ^ 2) = [] := by
  rw [shiftPts_zero]
  norm_num [pairwise_xy_z_distance_no_pbc, perpSq, paraSq,
    List.filterMap_cons]

theorem C1_engine :
    xyzPairMatrixEngine ⟨1, 1, 1, 3/2, 3/2, 15/2⟩ (indexPts [⟨0, 0, 0⟩])
        (indexPts [⟨0, 0, 3/2⟩]) false ⟨3/2, 3/2, 15/2⟩ ((1/2 : ℚ) ^ 2)
        ((1/2 : ℚ) ^ 2) |(1/2 : ℚ)| |(1/2 : ℚ)| (0, 0, 0) = [] := by
  simp only [xyzPairMatrixEngine, C1_adj, C1_cell1, C1_cell2,
    List.flatMap_cons, List.flatMap_nil, C1_kernel, List.append_nil]

/-- C1: evidence for the `pi_max = float(rp_max)` transcription bug (line
243).  At data1 = [[0,0,0]], data2 = [[0,0,1.5]], rp_max = 1/2, pi_max = 2
(period None, serial, one-cell hints) the pair (0,0) satisfies the
documented two-threshold cut — its perpendicular separation is 0 ≤ rp_max
and its parallel separation 3/2 satisfies (3/2)² ≤ pi_max² — yet the code
returns two empty matrices, because the parallel threshold was silently
overwritten by the perpendicular one before squaring. -/
theorem C1_pi_max_overwritten :
    xy_z_pair_matrix [⟨0, 0, 0⟩] [⟨0, 0, 3/2⟩] (1/2) 2 none false (.int 1)
        (some ⟨8, 8, 8⟩) (some ⟨8, 8, 8⟩) 1 =
      .ok (⟨1, 1, []⟩, ⟨1, 1, []⟩) ∧
    perpSq ⟨0, 0, 0⟩ ⟨0, 0, 3/2⟩ ≤ (1/2) ^ 2 ∧
    paraSq ⟨0, 0, 0⟩ ⟨0, 0, 3/2⟩ ≤ 2 ^ 2 := by
  refine ⟨?_, by norm_num [perpSq], by norm_num [paraSq]⟩
  have hpa : processArgs [(⟨0, 0, 0⟩ : Pt)] [⟨0, 0, 3/2⟩] none (.int 1)
      ⟨1/2, 1/2, 2⟩ 1 =
      .ok ([⟨0, 0, 0⟩], [⟨0, 0, 3/2⟩], ⟨3/2, 3/2, 15/2⟩, 1, false) := by
    simp only [processArgs, processNumThreads, processPeriod, C1_enclose]
  have hset : setApproxSizes (some ⟨8, 8, 8⟩) (some ⟨8, 8, 8⟩)
      ⟨3/2, 3/2, 15/2⟩ = .ok (⟨8, 8, 8⟩, ⟨8, 8, 8⟩) := by
    norm_num [setApproxSizes]
  simp only [xy_z_pair_matrix, hpa, hset, C1_geom, Bool.false_eq_true,
    if_false, dispatch_one, C1_allCells, List.map_cons, List.map_nil,
    C1_engine, List.flatten_cons, List.flatten_nil, List.append_nil,
    List.length_cons, List.length_nil]

/-- The caller's `data1`/`data2` buffers threaded as mutable state, so that
an in-place transcription would surface as a state write.  `_process_args`
takes read-only column views of these buffers (lines 369-374);
`_enclose_in_box` computes `x1 - xyzmin` into freshly allocated arrays, the
double tree owns reordered copies of the coordinates, and each engine's
`tree2.x[s2] + xshift` (lines 160-162 and 332-334) allocates a fresh shifted
array rather than adding in place — none of the numpy operations in either
entry point mutates an input buffer, so the transcription below only reads
the state, on the success paths and on every error path alike. -/
def pair_matrix_st (rMax : ℚ) (period : Option (List PFloat)) (verbose : Bool)
    (numThreads : NTArg) (h1 h2 : Option Pt) (cpuCount : ℤ) :
    StateM (List Pt × List Pt) (Except PyErr CooMatrix) := do
  let st ← get
  pure (pair_matrix st.1 st.2 rMax period verbose numThreads h1 h2 cpuCount)

/-- State-threaded `xy_z_pair_matrix`; see `pair_matrix_st`. -/
def xy_z_pair_matrix_st (rpMax piMax : ℚ) (period : Option (List PFloat))
    (verbose : Bool) (numThreads : NTArg) (h1 h2 : Option Pt) (cpuCount : ℤ) :
    StateM (List Pt × List Pt) (Except PyErr (CooMatrix × CooMatrix)) := do
  let st ← get
  pure (xy_z_pair_matrix st.1 st.2 rpMax piMax period verbose numThreads h1 h2
    cpuCount)

/-- C10: both entry points leave the caller's input buffers exactly as they
were — the state after the call (normal return or error) is the initial
state, and the returned value is the pure function of the initial buffers. -/
theorem C10_inputs_unchanged (st : List Pt × List Pt) (rMax rpMax piMax : ℚ)
    (period : Option (List PFloat)) (verbose : Bool) (nt : NTArg)
    (h1 h2 : Option Pt) (cpu : ℤ) :
    (pair_matrix_st rMax period verbose nt h1 h2 cpu).run st =
      (pair_matrix st.1 st.2 rMax period verbose nt h1 h2 cpu, st) ∧
    (xy_z_pair_matrix_st rpMax piMax period verbose nt h1 h2 cpu).run st =
      (xy_z_pair_matrix st.1 st.2 rpMax piMax period verbose nt h1 h2 cpu,
        st) :=
  ⟨rfl, rfl⟩
